import Mathlib

/-!
Shallow embedding of the UniValue JSON value library
(src/univalue/lib/univalue.cpp of bitcoin-cash-node), together with
theorems settling the specification claims about it.

The C++ `UniValue` class is a tagged union: a type tag `typ`, a text
payload `val` (used by Number and String), an object payload `entries`
(an insertion-ordered vector of key/value pairs) and an array payload
`values` (a vector of values).  We embed it as a nested inductive with
those four fields.  Fallible (throwing) operations are embedded as
`Except`-returning functions; the two C++ exception classes
`std::out_of_range` and `std::domain_error` become the two constructors
of `UVError`, carrying the exception message text.
-/

set_option autoImplicit false

namespace UVSpec

/-- The seven type tags of `UniValue::VType`. -/
inductive VType where
  | VNULL
  | VFALSE
  | VTRUE
  | VOBJ
  | VARR
  | VNUM
  | VSTR
  deriving DecidableEq, Repr

/-- Modelled from the spec: the numeric values of the `VType` enumerators are
declared in the header `univalue.h`, which is not part of this excerpt.  The
spec describes the bitmask form of `uvTypeName` as joining the names of "all
set bits" in the canonical order Null, False, True, Object, Array, Number,
String (so every tag, including Null, occupies its own bit, in that bit
order). -/
def VType.toBits : VType → Nat
  | .VNULL => 1
  | .VFALSE => 2
  | .VTRUE => 4
  | .VOBJ => 8
  | .VARR => 16
  | .VNUM => 32
  | .VSTR => 64

/-- The `UniValue` tagged union: tag, text payload, object payload
(ordered key/value pairs), array payload (ordered values). -/
inductive UniValue where
  | mk (typ : VType) (val : String) (entries : List (String × UniValue))
      (values : List UniValue)

/-- The type tag of a value. -/
def UniValue.typ : UniValue → VType
  | .mk t _ _ _ => t

/-- The text payload of a value (meaningful for Number and String). -/
def UniValue.val : UniValue → String
  | .mk _ v _ _ => v

/-- The object payload: ordered key/value pairs. -/
def UniValue.entries : UniValue → List (String × UniValue)
  | .mk _ _ e _ => e

/-- The array payload: ordered values. -/
def UniValue.values : UniValue → List UniValue
  | .mk _ _ _ a => a

@[simp] theorem UniValue.typ_mk (t : VType) (v : String)
    (e : List (String × UniValue)) (a : List UniValue) :
    (UniValue.mk t v e a).typ = t := rfl

@[simp] theorem UniValue.val_mk (t : VType) (v : String)
    (e : List (String × UniValue)) (a : List UniValue) :
    (UniValue.mk t v e a).val = v := rfl

@[simp] theorem UniValue.entries_mk (t : VType) (v : String)
    (e : List (String × UniValue)) (a : List UniValue) :
    (UniValue.mk t v e a).entries = e := rfl

@[simp] theorem UniValue.values_mk (t : VType) (v : String)
    (e : List (String × UniValue)) (a : List UniValue) :
    (UniValue.mk t v e a).values = a := rfl

/-- `const UniValue NullUniValue;` — the default-constructed shared null
sentinel: tag Null, every payload empty. -/
def NullUniValue : UniValue := .mk .VNULL "" [] []

/-- Errors thrown by the throwing accessors: `std::out_of_range` and
`std::domain_error`, each carrying its message text. -/
inductive UVError where
  | outOfRange (msg : String)
  | domainError (msg : String)
  deriving DecidableEq

/-- `uvTypeName(UniValue::VType)`: the human-readable name of a single tag. -/
def uvTypeName : VType → String
  | .VNULL => "null"
  | .VFALSE => "false"
  | .VTRUE => "true"
  | .VOBJ => "object"
  | .VARR => "array"
  | .VNUM => "number"
  | .VSTR => "string"

/-! ### The Object container (`UniValue::Object`, a vector of pairs) -/

/-- `UniValue::Object::locate(key)`: scan the pairs in insertion order and
return (a pointer to) the value of the first pair whose key equals `key`,
or a null pointer when there is none. -/
def objLocate : List (String × UniValue) → String → Option UniValue
  | [], _ => none
  | e :: rest, key => if e.1 = key then some e.2 else objLocate rest key

/-- `UniValue::Object::operator[](key)`: the value found by `locate`, or the
`NullUniValue` sentinel when the key is absent. -/
def objGetKey (o : List (String × UniValue)) (key : String) : UniValue :=
  match objLocate o key with
  | some found => found
  | none => NullUniValue

/-- `UniValue::Object::operator[](index)`: the value of the pair at `index`
when `index < vector.size()`, the `NullUniValue` sentinel otherwise. -/
def objGetIdx (o : List (String × UniValue)) (index : Nat) : UniValue :=
  if h : index < o.length then (o.get ⟨index, h⟩).2 else NullUniValue

/-- `UniValue::Object::at(key)`: the value found by `locate`, or a thrown
`std::out_of_range` naming the missing key. -/
def objAtKey (o : List (String × UniValue)) (key : String) :
    Except UVError UniValue :=
  match objLocate o key with
  | some found => .ok found
  | none => .error (.outOfRange ("Key not found in JSON object: " ++ key))

/-- `UniValue::Object::at(index)`: the value of the pair at `index` when in
range, or a thrown `std::out_of_range` naming the index and the size. -/
def objAtIdx (o : List (String × UniValue)) (index : Nat) :
    Except UVError UniValue :=
  if h : index < o.length then .ok (o.get ⟨index, h⟩).2
  else .error (.outOfRange ("Index " ++ toString index ++
    " out of range in JSON object of length " ++ toString o.length))

/-- `UniValue::Object::front()`: value of the first pair, or the sentinel
when the container is empty. -/
def objFront : List (String × UniValue) → UniValue
  | [] => NullUniValue
  | e :: _ => e.2

/-- `UniValue::Object::back()`: value of the last pair, or the sentinel
when the container is empty. -/
def objBack (o : List (String × UniValue)) : UniValue :=
  match o.getLast? with
  | some e => e.2
  | none => NullUniValue

/-! ### JSON number validation and the setters -/

/-- Consume a (possibly empty) run of decimal digits from the front. -/
def chompDigits : List Char → List Char
  | c :: cs => if c.isDigit then chompDigits cs else c :: cs
  | [] => []

/-- Consume one or more decimal digits; `none` when the input does not
start with a digit. -/
def requireDigits : List Char → Option (List Char)
  | c :: cs => if c.isDigit then some (chompDigits cs) else none
  | [] => none

/-- The integer part of a JSON number: `0`, or a nonzero digit followed by
any further digits. -/
def jsonIntPart : List Char → Option (List Char)
  | '0' :: cs => some cs
  | c :: cs => if c.isDigit then some (chompDigits cs) else none
  | [] => none

/-- The optional fraction part of a JSON number: `.` followed by one or
more digits, or nothing. -/
def jsonFracPart : List Char → Option (List Char)
  | '.' :: cs => requireDigits cs
  | cs => some cs

/-- The optional exponent part of a JSON number: `e`/`E`, an optional sign,
and one or more digits, or nothing. -/
def jsonExpPart : List Char → Option (List Char)
  | c :: cs =>
    if c = 'e' ∨ c = 'E' then
      match cs with
      | s :: cs2 => if s = '+' ∨ s = '-' then requireDigits cs2 else requireDigits (s :: cs2)
      | [] => none
    else some (c :: cs)
  | [] => some []

/-- Modelled from the spec: `validNumStr` delegates to the number tokenizer
`getJsonToken` (declared in `univalue.h` / defined in the parser, neither of
which is part of this excerpt).  Per the spec it "reports whether it forms
one complete, valid JSON number token", i.e. `-? (0 | [1-9][0-9]*)
(. [0-9]+)? ([eE][+-]?[0-9]+)?` with nothing left over. -/
def validNumStr (s : String) : Bool :=
  let l := match s.data with
    | '-' :: cs => cs
    | cs => cs
  match jsonIntPart l with
  | none => false
  | some l1 =>
    match jsonFracPart l1 with
    | none => false
    | some l2 =>
      match jsonExpPart l2 with
      | none => false
      | some l3 => l3.isEmpty

/-- `UniValue::setNull()`: tag becomes Null and every payload is cleared. -/
def setNull (_v : UniValue) : UniValue := .mk .VNULL "" [] []

/-- `UniValue::setBool(b)`: reset to null, then tag True or False. -/
def setBool (v : UniValue) (b : Bool) : UniValue :=
  .mk (if b then .VTRUE else .VFALSE) (setNull v).val (setNull v).entries
    (setNull v).values

/-- `UniValue::setObject(object)`: reset to null, tag Object, object payload
copied/moved in. -/
def setObject (v : UniValue) (object : List (String × UniValue)) : UniValue :=
  .mk .VOBJ (setNull v).val object (setNull v).values

/-- `UniValue::setArray(array)`: reset to null, tag Array, array payload
copied/moved in. -/
def setArray (v : UniValue) (array : List UniValue) : UniValue :=
  .mk .VARR (setNull v).val (setNull v).entries array

/-- `UniValue::setStr(val_)`: reset to null, tag String, store the text. -/
def setStr (v : UniValue) (s : String) : UniValue :=
  .mk .VSTR s (setNull v).entries (setNull v).values

/-- `UniValue::setNumStr(val_)`: when `validNumStr` rejects the text the call
returns with the value untouched; otherwise reset to null, tag Number,
store the text. -/
def setNumStr (v : UniValue) (s : String) : UniValue :=
  if validNumStr s then .mk .VNUM s (setNull v).entries (setNull v).values
  else v

/-- A C++ `double` argument, abstracted: whether `std::isfinite` holds, and
the text `std::ostringstream` (classic locale, 16 significant digits)
produces for it when it is finite.  Only the finiteness test is consulted by
the guard under verification; the rendering itself is floating-point
formatting and stays abstract. -/
structure CDouble where
  isFinite : Bool
  render : String

/-- `UniValue::setFloat(val_)`: a non-finite argument returns with the value
untouched; otherwise reset to null, tag Number, store the formatted text. -/
def setFloat (v : UniValue) (d : CDouble) : UniValue :=
  if d.isFinite then .mk .VNUM d.render (setNull v).entries (setNull v).values
  else v

/-! ### Integer formatting (`UniValue::setInt64` / `setInt`) -/

/-- The base-10 digit list of `n`, most significant first; `[]` for `0`.
This is the digit sequence `snprintf` with `%` `PRId64` / `%` `PRIu64`
produces for a nonzero magnitude. -/
def natDigits (n : Nat) : List Nat :=
  if n = 0 then [] else natDigits (n / 10) ++ [n % 10]
  decreasing_by exact Nat.div_lt_self (Nat.pos_of_ne_zero (by assumption)) (by omega)

/-- A single decimal digit as a character. -/
def digitChar (d : Nat) : Char := Char.ofNat (48 + d)

/-- Decimal text of a natural number, as `snprintf` renders an unsigned
64-bit integer: `"0"` for zero, otherwise the digits with no leading zero. -/
def u64Text (n : Nat) : String :=
  if n = 0 then "0" else ⟨(natDigits n).map digitChar⟩

/-- Decimal text of an integer, as `snprintf` renders a signed 64-bit
integer: a leading `-` exactly for negative values. -/
def i64Text (x : Int) : String :=
  if x < 0 then "-" ++ u64Text x.natAbs else u64Text x.natAbs

/-- `UniValue::setInt64<int64_t>`: format into a 21-byte buffer; if the
formatted length is zero or does not fit the buffer, return with the value
untouched (cannot happen for 64-bit range); otherwise reset to null, tag
Number, store the text. -/
def setInt64S (v : UniValue) (x : Int) : UniValue :=
  if (i64Text x).length ≤ 0 ∨ 21 ≤ (i64Text x).length then v
  else .mk .VNUM (i64Text x) (setNull v).entries (setNull v).values

/-- `UniValue::setInt64<uint64_t>`: the unsigned instantiation. -/
def setInt64U (v : UniValue) (n : Nat) : UniValue :=
  if (u64Text n).length ≤ 0 ∨ 21 ≤ (u64Text n).length then v
  else .mk .VNUM (u64Text n) (setNull v).entries (setNull v).values

/-- Read a digit list (most significant first) back as a natural number. -/
def digitsVal (l : List Nat) : Nat := l.foldl (fun a d => 10 * a + d) 0

/-- Read decimal text back as a natural number. -/
def parseNat (s : String) : Nat :=
  digitsVal (s.data.map (fun c => c.toNat - 48))

/-- Read decimal text with an optional leading minus back as an integer. -/
def parseInt (s : String) : Int :=
  if s.data.head? = some '-' then -(parseNat (String.mk s.data.tail) : Int)
  else (parseNat s : Int)

/-! ### The Array container (`UniValue::Array`, a vector of values) -/

/-- `UniValue::Array::operator[](index)`: element at `index` when in range,
the `NullUniValue` sentinel otherwise. -/
def arrGetIdx (a : List UniValue) (index : Nat) : UniValue :=
  if h : index < a.length then a.get ⟨index, h⟩ else NullUniValue

/-- `UniValue::Array::at(index)`: element at `index` when in range, or a
thrown `std::out_of_range` naming the index and the size. -/
def arrAtIdx (a : List UniValue) (index : Nat) : Except UVError UniValue :=
  if h : index < a.length then .ok (a.get ⟨index, h⟩)
  else .error (.outOfRange ("Index " ++ toString index ++
    " out of range in JSON array of length " ++ toString a.length))

/-- `UniValue::Array::front()`: first element, or the sentinel when empty. -/
def arrFront : List UniValue → UniValue
  | [] => NullUniValue
  | u :: _ => u

/-- `UniValue::Array::back()`: last element, or the sentinel when empty. -/
def arrBack (a : List UniValue) : UniValue :=
  match a.getLast? with
  | some u => u
  | none => NullUniValue

/-! ### UniValue-level accessors -/

/-- `UniValue::locate(key)`: delegates to `entries.locate(key)` (no tag
check in the source; the object payload is empty for non-Object tags). -/
def UniValue.locate (v : UniValue) (key : String) : Option UniValue :=
  objLocate v.entries key

/-- `UniValue::operator[](key)`: the value `locate` finds, or the
`NullUniValue` sentinel. -/
def UniValue.getKey (v : UniValue) (key : String) : UniValue :=
  match v.locate key with
  | some found => found
  | none => NullUniValue

/-- `UniValue::operator[](index)`: delegates to the object or array
container by tag; the `NullUniValue` sentinel for every other tag. -/
def UniValue.getIdx (v : UniValue) (index : Nat) : UniValue :=
  match v.typ with
  | .VOBJ => objGetIdx v.entries index
  | .VARR => arrGetIdx v.values index
  | _ => NullUniValue

/-- `UniValue::front()`: delegates by tag; the sentinel otherwise. -/
def UniValue.front (v : UniValue) : UniValue :=
  match v.typ with
  | .VOBJ => objFront v.entries
  | .VARR => arrFront v.values
  | _ => NullUniValue

/-- `UniValue::back()`: delegates by tag; the sentinel otherwise. -/
def UniValue.back (v : UniValue) : UniValue :=
  match v.typ with
  | .VOBJ => objBack v.entries
  | .VARR => arrBack v.values
  | _ => NullUniValue

/-- `UniValue::at(key)`: requires tag Object, then delegates to
`entries.at(key)`; otherwise throws `std::domain_error` naming the actual
type. -/
def UniValue.atKey (v : UniValue) (key : String) : Except UVError UniValue :=
  if v.typ = .VOBJ then objAtKey v.entries key
  else .error (.domainError ("Cannot look up keys in JSON " ++
    uvTypeName v.typ ++ ", expected object with key: " ++ key))

/-- `UniValue::at(index)`: requires tag Object or Array, then delegates to
the container's `at(index)`; otherwise throws `std::domain_error` naming
the actual type. -/
def UniValue.atIdx (v : UniValue) (index : Nat) : Except UVError UniValue :=
  match v.typ with
  | .VOBJ => objAtIdx v.entries index
  | .VARR => arrAtIdx v.values index
  | _ => .error (.domainError ("Cannot look up indices in JSON " ++
      uvTypeName v.typ ++ ", expected array or object larger than " ++
      toString index ++ " elements"))

/-! ### Equality (`UniValue::operator==`) -/

mutual

/-- `UniValue::operator==`: tags must be equal; Object and Array compare
their containers, Number and String compare the text payload, and Null,
True and False need nothing further. -/
def uvEq : UniValue → UniValue → Bool
  | .mk t1 v1 e1 a1, .mk t2 v2 e2 a2 =>
    if t1 = t2 then
      match t1 with
      | .VOBJ => objEq e1 e2
      | .VARR => arrEq a1 a2
      | .VNUM => v1 = v2
      | .VSTR => v1 = v2
      | _ => true
    else false

/-- `std::vector<std::pair<std::string, UniValue>>::operator==`: elementwise
in order; a pair is equal when the keys and the values are. -/
def objEq : List (String × UniValue) → List (String × UniValue) → Bool
  | [], [] => true
  | e1 :: r1, e2 :: r2 => e1.1 = e2.1 && uvEq e1.2 e2.2 && objEq r1 r2
  | _, _ => false

/-- `std::vector<UniValue>::operator==`: elementwise in order. -/
def arrEq : List UniValue → List UniValue → Bool
  | [], [] => true
  | u1 :: r1, u2 :: r2 => uvEq u1 u2 && arrEq r1 r2
  | _, _ => false

end

/-! ### Bitmask type names (`uvTypeName(int)`) -/

/-- One step of `appendTypeNameIfTypeIncludes`: when the bit of `ty` is set
in `t`, append a `/` separator (unless the result is still empty) and then
the tag's name. -/
def appendTypeNameStep (t : Nat) (result : String) (ty : VType) : String :=
  if t &&& ty.toBits ≠ 0 then
    (if result ≠ "" then result ++ "/" else result) ++ uvTypeName ty
  else result

/-- The canonical tag order of `uvTypeName(int)`'s appends. -/
def canonicalTagOrder : List VType :=
  [.VNULL, .VFALSE, .VTRUE, .VOBJ, .VARR, .VNUM, .VSTR]

/-- `uvTypeName(int)`: fold the append step over the canonical tag order,
starting from the empty string. -/
def uvTypeNameBits (t : Nat) : String :=
  canonicalTagOrder.foldl (appendTypeNameStep t) ""

/-- The spec's "slash-joined concatenation" of a list of names. -/
def slashJoined : List String → String
  | [] => ""
  | [nm] => nm
  | nm :: rest => nm ++ "/" ++ slashJoined rest

/-! ### Concrete example values (used by witnesses) -/

/-- A Number value with payload text `"1"`. -/
def exNum1 : UniValue := .mk .VNUM "1" [] []

/-- A Number value with payload text `"2"`. -/
def exNum2 : UniValue := .mk .VNUM "2" [] []

/-- A Number value with payload text `"3"`. -/
def exNum3 : UniValue := .mk .VNUM "3" [] []

/-- The spec's example object: pairs [("a",1), ("b",2), ("a",3)], with a
duplicated key "a". -/
def exPairs : List (String × UniValue) := [("a", exNum1), ("b", exNum2), ("a", exNum3)]

/-- An Object value holding `exPairs`. -/
def exObj : UniValue := .mk .VOBJ "" exPairs []

/-- A two-element Array value. -/
def exArr : UniValue := .mk .VARR "" [] [exNum1, exNum2]

/-- Substring containment over the underlying character lists, used to state
"the error message contains ...". -/
def strContains (hay needle : String) : Prop :=
  ∃ pre post, hay.data = pre ++ needle.data ++ post

/-- Well-formedness invariant of the data model (spec §3): the object payload
is empty unless the tag is Object, the array payload empty unless Array. -/
def WF (v : UniValue) : Prop :=
  (v.typ ≠ .VOBJ → v.entries = []) ∧ (v.typ ≠ .VARR → v.values = [])

theorem strContains_suffix (a b : String) : strContains (a ++ b) b :=
  ⟨a.data, [], by simp [String.data_append]⟩

theorem strContains_mid (a b c : String) : strContains (a ++ b ++ c) b :=
  ⟨a.data, c.data, by simp [String.data_append]⟩

theorem strContains_mid2 (a b c d : String) :
    strContains (a ++ b ++ c ++ d) b :=
  ⟨a.data, c.data ++ d.data, by simp [String.data_append]⟩

theorem strContains_mid3 (a b c d e : String) :
    strContains (a ++ b ++ c ++ d ++ e) b :=
  ⟨a.data, c.data ++ d.data ++ e.data, by simp [String.data_append]⟩

/-- Every setter establishes the payload-consistency invariant `WF`, and the
null sentinel satisfies it, so the values the library builds are `WF`. -/
theorem setters_establish_wf (v : UniValue) (b : Bool) (s : String)
    (o : List (String × UniValue)) (a : List UniValue) (d : CDouble)
    (x : Int) (n : Nat) :
    WF NullUniValue ∧ WF (setNull v) ∧ WF (setBool v b) ∧ WF (setStr v s) ∧
    ((setObject v o).typ = .VOBJ ∧ (setObject v o).val = "" ∧ (setObject v o).values = []) ∧
    ((setArray v a).typ = .VARR ∧ (setArray v a).val = "" ∧ (setArray v a).entries = []) ∧
    (WF v → WF (setNumStr v s)) ∧ (WF v → WF (setFloat v d)) ∧
    (WF v → WF (setInt64S v x)) ∧ (WF v → WF (setInt64U v n)) := by
  refine ⟨⟨fun _ => rfl, fun _ => rfl⟩, ⟨fun _ => rfl, fun _ => rfl⟩, ?_, ?_, ?_, ?_, ?_, ?_, ?_, ?_⟩
  · cases b <;> exact ⟨fun _ => rfl, fun _ => rfl⟩
  · exact ⟨fun _ => rfl, fun _ => rfl⟩
  · exact ⟨rfl, rfl, rfl⟩
  · exact ⟨rfl, rfl, rfl⟩
  · intro h
    unfold setNumStr
    cases validNumStr s <;> simp [h]
    exact ⟨fun _ => rfl, fun _ => rfl⟩
  · intro h
    unfold setFloat
    cases d.isFinite <;> simp [h]
    exact ⟨fun _ => rfl, fun _ => rfl⟩
  · intro h
    unfold setInt64S
    split
    · exact h
    · exact ⟨fun _ => rfl, fun _ => rfl⟩
  · intro h
    unfold setInt64U
    split
    · exact h
    · exact ⟨fun _ => rfl, fun _ => rfl⟩

/-- C1: `Object::operator[]` and `Object::locate` return the value of the
first stored pair (in insertion order) whose key equals the argument — an
earlier-inserted duplicate shadows later ones — and the `NullUniValue`
sentinel (`operator[]`) resp. a null pointer (`locate`) when no pair has
that key. -/
theorem locate_returns_first_match
    (pre post o : List (String × UniValue)) (k k2 : String) (u : UniValue)
    (hpre : ∀ e ∈ pre, e.1 ≠ k) (habs : ∀ e ∈ o, e.1 ≠ k2) :
    (objLocate (pre ++ (k, u) :: post) k = some u ∧
     objGetKey (pre ++ (k, u) :: post) k = u) ∧
    (objLocate o k2 = none ∧ objGetKey o k2 = NullUniValue) := by
  have hfirst : objLocate (pre ++ (k, u) :: post) k = some u := by
    induction pre with
    | nil => simp [objLocate]
    | cons e rest ih =>
      have he : e.1 ≠ k := hpre e (by simp)
      simp only [List.cons_append, objLocate, if_neg he]
      exact ih (fun e2 h2 => hpre e2 (by simp [h2]))
  have hnone : objLocate o k2 = none := by
    induction o with
    | nil => rfl
    | cons e rest ih =>
      have he : e.1 ≠ k2 := habs e (by simp)
      simp only [objLocate, if_neg he]
      exact ih (fun e2 h2 => habs e2 (by simp [h2]))
  exact ⟨⟨hfirst, by simp [objGetKey, hfirst]⟩, hnone, by simp [objGetKey, hnone]⟩

/-- Witness for C1, at the spec's example [("a",1), ("b",2), ("a",3)]:
`locate "a"` returns the first "a" (payload 1), and key "c" is absent. -/
theorem locate_returns_first_match_witness :
    (objLocate exPairs "a" = some exNum1 ∧ objGetKey exPairs "a" = exNum1) ∧
    (objLocate exPairs "c" = none ∧ objGetKey exPairs "c" = NullUniValue) :=
  locate_returns_first_match [] [("b", exNum2), ("a", exNum3)] exPairs
    "a" "c" exNum1 (by simp) (by intro e he; fin_cases he <;> decide)

/-- C2: `setNumStr` on a string that is not a valid JSON number token, and
`setFloat` on a non-finite double, leave the value completely unchanged
(same tag and payloads) and return normally, signalling nothing. -/
theorem invalid_numeric_setters_are_noop (v : UniValue) (s : String)
    (d : CDouble) (hs : validNumStr s = false) (hd : d.isFinite = false) :
    setNumStr v s = v ∧ setFloat v d = v := by
  constructor
  · unfold setNumStr; rw [hs]; rfl
  · unfold setFloat; rw [hd]; rfl

/-- Witness for C2: a value previously set to the string "keep" survives
`setNumStr "not a number"` and `setFloat` of a non-finite double intact. -/
theorem invalid_numeric_setters_are_noop_witness :
    setNumStr (UniValue.mk .VSTR "keep" [] []) "not a number" =
      UniValue.mk .VSTR "keep" [] [] ∧
    setFloat (UniValue.mk .VSTR "keep" [] []) ⟨false, "nan"⟩ =
      UniValue.mk .VSTR "keep" [] [] :=
  invalid_numeric_setters_are_noop (UniValue.mk .VSTR "keep" [] [])
    "not a number" ⟨false, "nan"⟩ (by decide) rfl

/-- C3: after `setNull` the tag is Null and no payload is observable (string
payload empty, object and array payloads of length 0); and every other
setter either leaves the value untouched (the fail-soft no-ops) or likewise
starts from the cleared state, so no stale payload survives a type
transition. -/
theorem setNull_clears_all_payloads (v : UniValue) (b : Bool) (s t : String)
    (o : List (String × UniValue)) (a : List UniValue) (d : CDouble)
    (x : Int) (n : Nat) :
    ((setNull v).typ = .VNULL ∧ (setNull v).val = "" ∧
     (setNull v).entries = [] ∧ (setNull v).values = [] ∧
     setNull v = NullUniValue) ∧
    ((setBool v b).val = "" ∧ (setBool v b).entries = [] ∧ (setBool v b).values = []) ∧
    ((setStr v t).entries = [] ∧ (setStr v t).values = []) ∧
    ((setObject v o).val = "" ∧ (setObject v o).values = []) ∧
    ((setArray v a).val = "" ∧ (setArray v a).entries = []) ∧
    (setNumStr v s = v ∨
      ((setNumStr v s).typ = .VNUM ∧ (setNumStr v s).entries = [] ∧ (setNumStr v s).values = [])) ∧
    (setFloat v d = v ∨
      ((setFloat v d).typ = .VNUM ∧ (setFloat v d).entries = [] ∧ (setFloat v d).values = [])) ∧
    (setInt64S v x = v ∨
      ((setInt64S v x).typ = .VNUM ∧ (setInt64S v x).entries = [] ∧ (setInt64S v x).values = [])) ∧
    (setInt64U v n = v ∨
      ((setInt64U v n).typ = .VNUM ∧ (setInt64U v n).entries = [] ∧ (setInt64U v n).values = [])) := by
  refine ⟨⟨rfl, rfl, rfl, rfl, rfl⟩, ?_, ⟨rfl, rfl⟩, ⟨rfl, rfl⟩, ⟨rfl, rfl⟩, ?_, ?_, ?_, ?_⟩
  · cases b <;> exact ⟨rfl, rfl, rfl⟩
  · unfold setNumStr
    cases validNumStr s
    · exact Or.inl rfl
    · exact Or.inr ⟨rfl, rfl, rfl⟩
  · unfold setFloat
    cases d.isFinite
    · exact Or.inl rfl
    · exact Or.inr ⟨rfl, rfl, rfl⟩
  · unfold setInt64S
    split
    · exact Or.inl rfl
    · exact Or.inr ⟨rfl, rfl, rfl⟩
  · unfold setInt64U
    split
    · exact Or.inl rfl
    · exact Or.inr ⟨rfl, rfl, rfl⟩

/-- C6: `Object::at(key)` on an absent key throws `std::out_of_range` with a
message containing the key; `Object::at(index)` and `Array::at(index)` with
an index at or past the size throw `std::out_of_range` with a message
containing both the index and the current size. -/
theorem at_absent_throws_out_of_range
    (o : List (String × UniValue)) (k : String) (a : List UniValue) (i j : Nat)
    (hk : objLocate o k = none) (hi : o.length ≤ i) (hj : a.length ≤ j) :
    (∃ msg, objAtKey o k = .error (.outOfRange msg) ∧ strContains msg k) ∧
    (∃ msg, objAtIdx o i = .error (.outOfRange msg) ∧
      strContains msg (toString i) ∧ strContains msg (toString o.length)) ∧
    (∃ msg, arrAtIdx a j = .error (.outOfRange msg) ∧
      strContains msg (toString j) ∧ strContains msg (toString a.length)) := by
  refine ⟨?_, ?_, ?_⟩
  · refine ⟨"Key not found in JSON object: " ++ k, ?_, strContains_suffix _ _⟩
    unfold objAtKey
    rw [hk]
  · refine ⟨"Index " ++ toString i ++ " out of range in JSON object of length " ++
      toString o.length, ?_, strContains_mid2 _ _ _ _, strContains_suffix _ _⟩
    unfold objAtIdx
    rw [dif_neg (Nat.not_lt.mpr hi)]
  · refine ⟨"Index " ++ toString j ++ " out of range in JSON array of length " ++
      toString a.length, ?_, strContains_mid2 _ _ _ _, strContains_suffix _ _⟩
    unfold arrAtIdx
    rw [dif_neg (Nat.not_lt.mpr hj)]

/-- Witness for C6: `at "missing"` on the example object carries "missing"
in its message; `at 5` on a 2-element array carries "5" and "2". -/
theorem at_absent_throws_out_of_range_witness :
    (∃ msg, objAtKey exPairs "missing" = .error (.outOfRange msg) ∧
      strContains msg "missing") ∧
    (∃ msg, objAtIdx exPairs 5 = .error (.outOfRange msg) ∧
      strContains msg (toString 5) ∧ strContains msg (toString exPairs.length)) ∧
    (∃ msg, arrAtIdx [exNum1, exNum2] 5 = .error (.outOfRange msg) ∧
      strContains msg (toString 5) ∧
      strContains msg (toString (List.length [exNum1, exNum2]))) :=
  at_absent_throws_out_of_range exPairs "missing" [exNum1, exNum2] 5 5
    rfl (by decide) (by decide)

/-- C7: `UniValue::at(key)` on a non-Object tag and `UniValue::at(index)` on
a tag that is neither Object nor Array throw `std::domain_error` whose
message names the value's actual type; when the tag supports the access
mode, `at` delegates to the container (propagating its out-of-range error
for an absent key, returning the matching element otherwise). -/
theorem at_wrong_tag_throws_domain_error
    (v : UniValue) (k : String) (i : Nat) (u : UniValue) :
    (v.typ ≠ .VOBJ → ∃ msg, v.atKey k = .error (.domainError msg) ∧
      strContains msg (uvTypeName v.typ)) ∧
    (v.typ = .VOBJ → v.atKey k = objAtKey v.entries k) ∧
    (v.typ = .VOBJ → v.locate k = some u → v.atKey k = .ok u) ∧
    (v.typ = .VOBJ → v.locate k = none →
      ∃ msg, v.atKey k = .error (.outOfRange msg)) ∧
    (v.typ ≠ .VOBJ → v.typ ≠ .VARR →
      ∃ msg, v.atIdx i = .error (.domainError msg) ∧
        strContains msg (uvTypeName v.typ)) ∧
    (v.typ = .VOBJ → v.atIdx i = objAtIdx v.entries i) ∧
    (v.typ = .VARR → v.atIdx i = arrAtIdx v.values i) := by
  refine ⟨?_, ?_, ?_, ?_, ?_, ?_, ?_⟩
  · intro h
    refine ⟨"Cannot look up keys in JSON " ++ uvTypeName v.typ ++
      ", expected object with key: " ++ k, ?_, strContains_mid2 _ _ _ _⟩
    unfold UniValue.atKey
    rw [if_neg h]
  · intro h
    unfold UniValue.atKey
    rw [if_pos h]
  · intro h hl
    unfold UniValue.atKey
    rw [if_pos h]
    unfold objAtKey
    rw [show objLocate v.entries k = some u from hl]
  · intro h hl
    refine ⟨"Key not found in JSON object: " ++ k, ?_⟩
    unfold UniValue.atKey
    rw [if_pos h]
    unfold objAtKey
    rw [show objLocate v.entries k = none from hl]
  · intro h1 h2
    refine ⟨"Cannot look up indices in JSON " ++ uvTypeName v.typ ++
      ", expected array or object larger than " ++ toString i ++
      " elements", ?_, strContains_mid3 _ _ _ _ _⟩
    unfold UniValue.atIdx
    cases hvt : v.typ <;> simp_all
  · intro h
    unfold UniValue.atIdx
    rw [h]
  · intro h
    unfold UniValue.atIdx
    rw [h]

/-- C8: the non-throwing accessors never fail observably: `operator[]` by
key yields the `NullUniValue` sentinel for a non-Object tag or an absent
key, `operator[]` by index yields it for a wrong tag or an out-of-bounds
index, and `front`/`back` yield it for a wrong tag or an empty container. -/
theorem nonthrowing_accessors_never_fail (v : UniValue) (k : String)
    (i : Nat) (hwf : WF v) :
    (v.typ ≠ .VOBJ → v.getKey k = NullUniValue) ∧
    (v.locate k = none → v.getKey k = NullUniValue) ∧
    (v.typ ≠ .VOBJ → v.typ ≠ .VARR →
      v.getIdx i = NullUniValue ∧ v.front = NullUniValue ∧
      v.back = NullUniValue) ∧
    (v.typ = .VOBJ → v.entries.length ≤ i → v.getIdx i = NullUniValue) ∧
    (v.typ = .VARR → v.values.length ≤ i → v.getIdx i = NullUniValue) ∧
    (v.typ = .VOBJ → v.entries = [] →
      v.front = NullUniValue ∧ v.back = NullUniValue) ∧
    (v.typ = .VARR → v.values = [] →
      v.front = NullUniValue ∧ v.back = NullUniValue) := by
  refine ⟨?_, ?_, ?_, ?_, ?_, ?_, ?_⟩
  · intro h
    have he : v.entries = [] := hwf.1 h
    simp [UniValue.getKey, UniValue.locate, he, objLocate]
  · intro h
    simp [UniValue.getKey, UniValue.locate] at h ⊢
    rw [h]
  · intro h1 h2
    unfold UniValue.getIdx UniValue.front UniValue.back
    cases hvt : v.typ <;> simp_all
  · intro h hi
    unfold UniValue.getIdx
    rw [h]
    unfold objGetIdx
    rw [dif_neg (Nat.not_lt.mpr hi)]
  · intro h hi
    unfold UniValue.getIdx
    rw [h]
    unfold arrGetIdx
    rw [dif_neg (Nat.not_lt.mpr hi)]
  · intro h he
    unfold UniValue.front UniValue.back
    rw [h, he]
    exact ⟨rfl, rfl⟩
  · intro h ha
    unfold UniValue.front UniValue.back
    rw [h, ha]
    exact ⟨rfl, rfl⟩

/-- Witness for C8, at concrete values: a String value never answers key,
index, front or back lookups with anything but the sentinel; the example
object with an absent key or index 99, and empty containers, likewise. -/
theorem nonthrowing_accessors_never_fail_witness :
    ((UniValue.mk .VSTR "s" [] []).getKey "a" = NullUniValue ∧
     (UniValue.mk .VSTR "s" [] []).getIdx 0 = NullUniValue ∧
     (UniValue.mk .VSTR "s" [] []).front = NullUniValue ∧
     (UniValue.mk .VSTR "s" [] []).back = NullUniValue) ∧
    (exObj.getKey "missing" = NullUniValue ∧
     exObj.getIdx 99 = NullUniValue) ∧
    ((UniValue.mk .VARR "" [] []).getIdx 0 = NullUniValue ∧
     (UniValue.mk .VARR "" [] []).front = NullUniValue ∧
     (UniValue.mk .VARR "" [] []).back = NullUniValue) := by
  have hs := nonthrowing_accessors_never_fail (UniValue.mk .VSTR "s" [] [])
    "a" 0 ⟨fun _ => rfl, fun _ => rfl⟩
  have hso := (hs.2.2.1 (by simp [UniValue.typ]) (by simp [UniValue.typ]))
  have ho := nonthrowing_accessors_never_fail exObj "missing" 99
    ⟨fun h => absurd rfl h, fun _ => rfl⟩
  have ha := nonthrowing_accessors_never_fail (UniValue.mk .VARR "" [] [])
    "a" 0 ⟨fun _ => rfl, fun _ => rfl⟩
  refine ⟨⟨hs.1 (by simp [UniValue.typ]), hso.1, hso.2.1, hso.2.2⟩, ⟨?_, ?_⟩, ?_, ?_, ?_⟩
  · exact ho.2.1 rfl
  · exact ho.2.2.2.1 rfl (by decide)
  · exact ha.2.2.2.2.1 rfl (by decide)
  · exact (ha.2.2.2.2.2.2 rfl rfl).1
  · exact (ha.2.2.2.2.2.2 rfl rfl).2

/-- C10: wherever a positional index is in range of the active container,
the throwing accessor `at(index)` and the non-throwing `operator[](index)`
return the very same element. -/
theorem positional_at_agrees_with_index (v : UniValue) (i : Nat) :
    (v.typ = .VOBJ → i < v.entries.length → v.atIdx i = .ok (v.getIdx i)) ∧
    (v.typ = .VARR → i < v.values.length → v.atIdx i = .ok (v.getIdx i)) := by
  constructor
  · intro h hi
    unfold UniValue.atIdx UniValue.getIdx
    rw [h]
    unfold objAtIdx objGetIdx
    rw [dif_pos hi, dif_pos hi]
  · intro h hi
    unfold UniValue.atIdx UniValue.getIdx
    rw [h]
    unfold arrAtIdx arrGetIdx
    rw [dif_pos hi, dif_pos hi]

theorem append_slash_ne_empty (a b : String) : a ++ "/" ++ b ≠ "" := by
  intro h
  have hd := congrArg String.data h
  simp [String.data_append] at hd

theorem uvTypeName_ne_empty (ty : VType) : uvTypeName ty ≠ "" := by
  cases ty <;> decide

theorem slashJoined_cons_cons (nm mm : String) (rest : List String) :
    slashJoined (nm :: mm :: rest) = nm ++ "/" ++ slashJoined (mm :: rest) := by
  rfl

theorem slashJoined_glue (a s : String) (rest : List String) :
    slashJoined ((a ++ "/" ++ s) :: rest) = a ++ "/" ++ slashJoined (s :: rest) := by
  cases rest with
  | nil => rfl
  | cons r rs =>
    rw [slashJoined_cons_cons, slashJoined_cons_cons]
    simp [String.append_assoc]

theorem foldl_join_from (names : List String) :
    ∀ acc : String, acc ≠ "" →
      names.foldl (fun r s => (if r ≠ "" then r ++ "/" else r) ++ s) acc =
        slashJoined (acc :: names) := by
  induction names with
  | nil => intro acc _; rfl
  | cons s rest ih =>
    intro acc hacc
    rw [List.foldl_cons]
    have hstep : (if acc ≠ "" then acc ++ "/" else acc) ++ s = acc ++ "/" ++ s := by
      rw [if_pos hacc]
    rw [hstep, ih (acc ++ "/" ++ s) (append_slash_ne_empty acc s),
      slashJoined_glue, slashJoined_cons_cons]

theorem foldl_join_empty_start (names : List String)
    (hne : ∀ nm ∈ names, nm ≠ "") :
    names.foldl (fun r s => (if r ≠ "" then r ++ "/" else r) ++ s) "" =
      slashJoined names := by
  cases names with
  | nil => rfl
  | cons s rest =>
    rw [List.foldl_cons]
    have hs : s ≠ "" := hne s (by simp)
    have hstep : (if ("" : String) ≠ "" then "" ++ "/" else "") ++ s = s := by
      simp
    rw [hstep]
    exact foldl_join_from rest s hs

theorem foldl_step_eq_filter (t : Nat) :
    ∀ (l : List VType) (acc : String),
      l.foldl (appendTypeNameStep t) acc =
        ((l.filter fun ty => t &&& ty.toBits != 0).map uvTypeName).foldl
          (fun r s => (if r ≠ "" then r ++ "/" else r) ++ s) acc := by
  intro l
  induction l with
  | nil => intro acc; rfl
  | cons ty rest ih =>
    intro acc
    rw [List.foldl_cons]
    by_cases h : t &&& ty.toBits = 0
    · have hstep : appendTypeNameStep t acc ty = acc := by
        unfold appendTypeNameStep
        rw [if_neg (not_not_intro h)]
      have hb : ¬((t &&& ty.toBits != 0) = true) := by simp [h]
      rw [hstep, ih, List.filter_cons, if_neg hb]
    · have hstep : appendTypeNameStep t acc ty =
          (if acc ≠ "" then acc ++ "/" else acc) ++ uvTypeName ty := by
        unfold appendTypeNameStep
        rw [if_pos h]
      have hb : (t &&& ty.toBits != 0) = true := by simpa using h
      rw [hstep, ih, List.filter_cons, if_pos hb,
        List.map_cons, List.foldl_cons]

/-- C9: `uvTypeName(int)` returns the slash-joined concatenation of the
names of all tags whose bit is set in the mask, in the canonical order
Null, False, True, Object, Array, Number, String; a mask containing Object
and Array yields "object/array" and the empty mask yields the empty
string. -/
theorem uvTypeNameBits_slash_joined :
    (∀ t : Nat, uvTypeNameBits t =
      slashJoined ((canonicalTagOrder.filter
        fun ty => t &&& ty.toBits != 0).map uvTypeName)) ∧
    uvTypeNameBits (VType.VOBJ.toBits ||| VType.VARR.toBits) = "object/array" ∧
    uvTypeNameBits 0 = "" := by
  refine ⟨?_, by decide, rfl⟩
  intro t
  unfold uvTypeNameBits
  rw [foldl_step_eq_filter]
  refine foldl_join_empty_start _ ?_
  intro nm hnm
  obtain ⟨ty, _, rfl⟩ := List.mem_map.mp hnm
  exact uvTypeName_ne_empty ty

theorem arrEq_iff : ∀ a1 a2 : List UniValue,
    arrEq a1 a2 = true ↔
      List.Forall₂ (fun u1 u2 => uvEq u1 u2 = true) a1 a2 := by
  intro a1
  induction a1 with
  | nil =>
    intro a2
    cases a2 <;> simp [arrEq]
  | cons u r ih =>
    intro a2
    cases a2 with
    | nil => simp [arrEq]
    | cons u2 r2 =>
      simp [arrEq, Bool.and_eq_true, ih, List.forall₂_cons]

theorem objEq_iff : ∀ e1 e2 : List (String × UniValue),
    objEq e1 e2 = true ↔
      List.Forall₂
        (fun p1 p2 : String × UniValue => p1.1 = p2.1 ∧ uvEq p1.2 p2.2 = true)
        e1 e2 := by
  intro e1
  induction e1 with
  | nil =>
    intro e2
    cases e2 <;> simp [objEq]
  | cons p r ih =>
    intro e2
    cases e2 with
    | nil => simp [objEq]
    | cons p2 r2 =>
      simp [objEq, Bool.and_eq_true, ih, List.forall₂_cons, and_assoc]

/-- C5: two values are equal exactly when their tags are equal and, for
Number and String, the payload texts are byte-for-byte equal; for Object
and Array, the containers are equal elementwise in insertion order
(order-sensitive); Null, True and False compare by tag alone.  In
particular the Numbers "1.50" and "1.5" are unequal: no numeric
normalization happens. -/
theorem eq_iff_tag_and_payload :
    (∀ a b : UniValue, uvEq a b = true ↔
      (a.typ = b.typ ∧
       ((a.typ = .VNUM ∨ a.typ = .VSTR) → a.val = b.val) ∧
       (a.typ = .VOBJ → List.Forall₂
         (fun p1 p2 : String × UniValue => p1.1 = p2.1 ∧ uvEq p1.2 p2.2 = true)
         a.entries b.entries) ∧
       (a.typ = .VARR → List.Forall₂ (fun u1 u2 => uvEq u1 u2 = true)
         a.values b.values))) ∧
    uvEq (.mk .VNUM "1.50" [] []) (.mk .VNUM "1.5" [] []) = false := by
  constructor
  · intro a b
    obtain ⟨t1, v1, e1, a1⟩ := a
    obtain ⟨t2, v2, e2, a2⟩ := b
    by_cases h : t1 = t2
    · subst h
      cases t1 <;>
        simp [uvEq, objEq_iff, arrEq_iff, UniValue.typ, UniValue.val,
          UniValue.entries, UniValue.values]
    · simp [uvEq, h, UniValue.typ]
  · decide

theorem natDigits_zero : natDigits 0 = [] := by
  rw [natDigits]
  rfl

theorem natDigits_succ (n : Nat) (h : n ≠ 0) :
    natDigits n = natDigits (n / 10) ++ [n % 10] := by
  rw [natDigits, if_neg h]

theorem digitsVal_concat (l : List Nat) (d : Nat) :
    digitsVal (l ++ [d]) = 10 * digitsVal l + d := by
  simp [digitsVal, List.foldl_append]

theorem digitsVal_natDigits : ∀ n : Nat, digitsVal (natDigits n) = n := by
  intro n
  induction n using Nat.strong_induction_on with
  | _ n ih =>
    by_cases h : n = 0
    · subst h
      simp [natDigits_zero, digitsVal]
    · rw [natDigits_succ n h, digitsVal_concat,
        ih (n / 10) (Nat.div_lt_self (Nat.pos_of_ne_zero h) (by omega))]
      omega

theorem natDigits_all_lt : ∀ n : Nat, ∀ d ∈ natDigits n, d < 10 := by
  intro n
  induction n using Nat.strong_induction_on with
  | _ n ih =>
    by_cases h : n = 0
    · subst h
      simp [natDigits_zero]
    · rw [natDigits_succ n h]
      intro d hd
      rcases List.mem_append.mp hd with h1 | h2
      · exact ih (n / 10) (Nat.div_lt_self (Nat.pos_of_ne_zero h) (by omega)) d h1
      · have : d = n % 10 := by simpa using h2
        omega

theorem natDigits_head : ∀ n : Nat, n ≠ 0 →
    ∃ d rest, natDigits n = d :: rest ∧ d ≠ 0 ∧ d < 10 := by
  intro n
  induction n using Nat.strong_induction_on with
  | _ n ih =>
    intro h
    rw [natDigits_succ n h]
    by_cases h10 : n / 10 = 0
    · rw [h10, natDigits_zero]
      exact ⟨n % 10, [], by simp, by omega, by omega⟩
    · obtain ⟨d, rest, hds, hdne, hdlt⟩ :=
        ih (n / 10) (Nat.div_lt_self (Nat.pos_of_ne_zero h) (by omega)) h10
      rw [hds]
      exact ⟨d, rest ++ [n % 10], by simp, hdne, hdlt⟩

theorem natDigits_length_le : ∀ (k n : Nat), n < 10 ^ k →
    (natDigits n).length ≤ k := by
  intro k
  induction k with
  | zero =>
    intro n h
    have : n = 0 := by simpa using h
    subst this
    simp [natDigits_zero]
  | succ k ih =>
    intro n h
    by_cases hz : n = 0
    · subst hz
      simp [natDigits_zero]
    · rw [natDigits_succ n hz]
      have hdiv : n / 10 < 10 ^ k := by
        have hpow : 10 ^ (k + 1) = 10 ^ k * 10 := pow_succ 10 k
        rw [hpow] at h
        omega
      have := ih (n / 10) hdiv
      simp only [List.length_append, List.length_cons, List.length_nil]
      omega

theorem digitChar_toNat (d : Nat) (h : d < 10) : (digitChar d).toNat = 48 + d := by
  interval_cases d <;> rfl

theorem digitChar_isDigit (d : Nat) (h : d < 10) : (digitChar d).isDigit = true := by
  interval_cases d <;> decide

theorem digitChar_ne_zero (d : Nat) (h : d < 10) (h0 : d ≠ 0) :
    digitChar d ≠ '0' := by
  interval_cases d
  · exact absurd rfl h0
  all_goals decide

theorem digitChar_ne_minus (d : Nat) (h : d < 10) : digitChar d ≠ '-' := by
  interval_cases d <;> decide

theorem u64Text_data (n : Nat) (h : n ≠ 0) :
    (u64Text n).data = (natDigits n).map digitChar := by
  unfold u64Text
  rw [if_neg h]

theorem parseNat_mk_map (digits : List Nat) (hlt : ∀ d ∈ digits, d < 10) :
    parseNat (String.mk (digits.map digitChar)) = digitsVal digits := by
  show digitsVal ((digits.map digitChar).map (fun c => c.toNat - 48)) =
    digitsVal digits
  rw [List.map_map]
  congr 1
  induction digits with
  | nil => rfl
  | cons d rest ih =>
    rw [List.map_cons]
    have hd : d < 10 := hlt d (by simp)
    rw [show (((fun c : Char => c.toNat - 48) ∘ digitChar) d) = d by
      simp [Function.comp, digitChar_toNat d hd]]
    rw [ih (fun x hx => hlt x (by simp [hx]))]

theorem parseNat_u64Text (n : Nat) : parseNat (u64Text n) = n := by
  by_cases h : n = 0
  · subst h
    rfl
  · unfold u64Text
    rw [if_neg h]
    rw [parseNat_mk_map _ (natDigits_all_lt n), digitsVal_natDigits]

theorem u64Text_length_le (n k : Nat) (hk : 1 ≤ k) (h : n < 10 ^ k) :
    (u64Text n).length ≤ k := by
  unfold u64Text
  split
  · simpa using hk
  · show (String.mk _).length ≤ k
    rw [String.length_mk, List.length_map]
    exact natDigits_length_le k n h

theorem u64Text_length_pos (n : Nat) : 0 < (u64Text n).length := by
  unfold u64Text
  split
  · decide
  · show 0 < (String.mk _).length
    rw [String.length_mk, List.length_map]
    have hne := natDigits_succ n (by assumption)
    rw [hne]
    simp

theorem u64Text_all_digits (n : Nat) :
    ∀ c ∈ (u64Text n).data, c.isDigit := by
  by_cases h : n = 0
  · subst h
    intro c hc
    have : c = '0' := by simpa [u64Text] using hc
    subst this
    decide
  · rw [u64Text_data n h]
    intro c hc
    obtain ⟨d, hd, rfl⟩ := List.mem_map.mp hc
    exact digitChar_isDigit d (natDigits_all_lt n d hd)

theorem u64Text_head_zero (n : Nat) :
    (u64Text n).data.head? = some '0' → u64Text n = "0" := by
  by_cases h : n = 0
  · subst h
    intro _
    rfl
  · rw [u64Text_data n h]
    obtain ⟨d, rest, hds, hdne, hdlt⟩ := natDigits_head n h
    rw [hds, List.map_cons]
    intro hh
    have : digitChar d = '0' := by simpa using hh
    exact absurd this (digitChar_ne_zero d hdlt hdne)

theorem u64Text_head_digit (n : Nat) (h : n ≠ 0) :
    ∃ c rest, (u64Text n).data = c :: rest ∧ c.isDigit ∧ c ≠ '0' := by
  rw [u64Text_data n h]
  obtain ⟨d, drest, hds, hdne, hdlt⟩ := natDigits_head n h
  rw [hds, List.map_cons]
  exact ⟨digitChar d, drest.map digitChar, rfl,
    digitChar_isDigit d hdlt, digitChar_ne_zero d hdlt hdne⟩

theorem parseInt_i64Text (x : Int) : parseInt (i64Text x) = x := by
  by_cases h : x < 0
  · unfold i64Text
    rw [if_pos h]
    unfold parseInt
    have hdata : ("-" ++ u64Text x.natAbs).data =
        '-' :: (u64Text x.natAbs).data := by
      rw [String.data_append]
      rfl
    rw [hdata]
    rw [if_pos (by simp)]
    have hmk : String.mk (('-' :: (u64Text x.natAbs).data).tail) =
        u64Text x.natAbs := rfl
    rw [hmk, parseNat_u64Text]
    omega
  · unfold i64Text
    rw [if_neg h]
    unfold parseInt
    have hhead : ¬((u64Text x.natAbs).data.head? = some '-') := by
      by_cases hz : x.natAbs = 0
      · rw [hz]
        decide
      · obtain ⟨c, rest, hds, hdig, _⟩ := u64Text_head_digit x.natAbs hz
        rw [hds]
        simp only [List.head?_cons, Option.some_inj]
        intro hc
        subst hc
        simp at hdig
    rw [if_neg hhead, parseNat_u64Text]
    omega

theorem i64Text_head_minus_iff (x : Int) :
    ((i64Text x).data.head? = some '-') ↔ x < 0 := by
  constructor
  · intro hh
    by_contra h
    rw [i64Text, if_neg h] at hh
    by_cases hz : x.natAbs = 0
    · rw [hz] at hh
      simp [u64Text] at hh
    · obtain ⟨c, rest, hds, hdig, _⟩ := u64Text_head_digit x.natAbs hz
      rw [hds] at hh
      simp only [List.head?_cons, Option.some_inj] at hh
      subst hh
      simp at hdig
  · intro h
    rw [i64Text, if_pos h, String.data_append]
    rfl

theorem i64Text_head_zero (x : Int) :
    (i64Text x).data.head? = some '0' → i64Text x = "0" := by
  by_cases h : x < 0
  · rw [i64Text, if_pos h, String.data_append]
    intro hh
    simp at hh
  · rw [i64Text, if_neg h]
    exact u64Text_head_zero x.natAbs

theorem i64Text_neg_form (x : Int) (h : x < 0) :
    ∃ c rest, (i64Text x).data = '-' :: c :: rest ∧ c.isDigit ∧ c ≠ '0' := by
  rw [i64Text, if_pos h, String.data_append]
  have hz : x.natAbs ≠ 0 := by omega
  obtain ⟨c, rest, hds, hdig, hne⟩ := u64Text_head_digit x.natAbs hz
  rw [hds]
  exact ⟨c, rest, rfl, hdig, hne⟩

theorem i64Text_length_le (x : Int) (h1 : -(2 ^ 63) ≤ x) (h2 : x < 2 ^ 63) :
    (i64Text x).length ≤ 20 := by
  have habs : x.natAbs < 10 ^ 19 := by
    have : (2 : Int) ^ 63 < 10 ^ 19 := by decide
    omega
  unfold i64Text
  split
  · rw [String.length_append]
    have := u64Text_length_le x.natAbs 19 (by omega) habs
    have hone : ("-" : String).length = 1 := rfl
    omega
  · have h20 : x.natAbs < 10 ^ 20 := lt_of_lt_of_le habs (by norm_num)
    have := u64Text_length_le x.natAbs 20 (by omega) h20
    omega

theorem i64Text_length_pos (x : Int) : 0 < (i64Text x).length := by
  unfold i64Text
  split
  · rw [String.length_append]
    have := u64Text_length_pos x.natAbs
    omega
  · exact u64Text_length_pos x.natAbs

/-- C4: for an in-range signed 64-bit integer `x` (resp. unsigned `n`),
`setInt` stores tag Number and exactly the canonical base-10 text: reading
it back as an integer reproduces the value, there is a leading `-` exactly
for negative values, the digits carry no leading zero (except the single
digit "0" itself), and nothing but digits (after the optional sign) occurs. -/
theorem setInt_stores_canonical_decimal (v : UniValue) (x : Int) (n : Nat)
    (hx1 : -(2 ^ 63) ≤ x) (hx2 : x < 2 ^ 63) (hn : n < 2 ^ 64) :
    ((setInt64S v x).typ = .VNUM ∧
     (setInt64S v x).val = i64Text x ∧
     parseInt (setInt64S v x).val = x ∧
     (((setInt64S v x).val.data.head? = some '-') ↔ x < 0) ∧
     ((setInt64S v x).val.data.head? = some '0' → (setInt64S v x).val = "0") ∧
     (x < 0 → ∃ c rest, (setInt64S v x).val.data = '-' :: c :: rest ∧
       c.isDigit ∧ c ≠ '0') ∧
     (0 ≤ x → ∀ c ∈ (setInt64S v x).val.data, c.isDigit)) ∧
    ((setInt64U v n).typ = .VNUM ∧
     (setInt64U v n).val = u64Text n ∧
     parseNat (setInt64U v n).val = n ∧
     ((setInt64U v n).val.data.head? = some '0' → (setInt64U v n).val = "0") ∧
     (∀ c ∈ (setInt64U v n).val.data, c.isDigit)) := by
  have hslen : ¬((i64Text x).length ≤ 0 ∨ 21 ≤ (i64Text x).length) := by
    have h1 := i64Text_length_pos x
    have h2 := i64Text_length_le x hx1 hx2
    omega
  have hulen : ¬((u64Text n).length ≤ 0 ∨ 21 ≤ (u64Text n).length) := by
    have h1 := u64Text_length_pos n
    have h2 := u64Text_length_le n 20 (by omega)
      (lt_of_lt_of_le hn (by norm_num))
    omega
  have hs : setInt64S v x = .mk .VNUM (i64Text x) [] [] := by
    unfold setInt64S
    rw [if_neg hslen]
    rfl
  have hu : setInt64U v n = .mk .VNUM (u64Text n) [] [] := by
    unfold setInt64U
    rw [if_neg hulen]
    rfl
  rw [hs, hu]
  refine ⟨⟨rfl, rfl, parseInt_i64Text x, i64Text_head_minus_iff x,
    i64Text_head_zero x, i64Text_neg_form x, ?_⟩,
    rfl, rfl, parseNat_u64Text n, u64Text_head_zero n, u64Text_all_digits n⟩
  intro hx0
  rw [show (UniValue.mk VType.VNUM (i64Text x) [] []).val = i64Text x from rfl,
    i64Text, if_neg (by omega)]
  exact u64Text_all_digits x.natAbs

/-- Witness for C4, at x = -42 and n = 7: the stored texts are "-42" and
"7", and they read back to the original values. -/
theorem setInt_stores_canonical_decimal_witness :
    parseInt (setInt64S NullUniValue (-42)).val = -42 ∧
    parseNat (setInt64U NullUniValue 7).val = 7 ∧
    (setInt64S NullUniValue (-42)).typ = .VNUM ∧
    (setInt64U NullUniValue 7).typ = .VNUM := by
  have h := setInt_stores_canonical_decimal NullUniValue (-42) 7
    (by decide) (by decide) (by decide)
  exact ⟨h.1.2.2.1, h.2.2.2.1, h.1.1, h.2.1⟩

end UVSpec
